import Mathlib

/-!
Shallow Lean embedding of the trafficmon core: the retention-windowed
statistics aggregator (src/stats.rs), the nftables flow classifier with its
memoization cache (src/main.rs, module nftables), and the raw-packet
port classifier (src/classifier.rs).  HashMaps are modelled as association
lists with replace-or-append insertion; SystemTime is modelled as a natural
number of seconds, and SystemTime::duration_since returns none exactly when
the argument lies in the future.
-/

/-- Association-list lookup: first binding for the key, as HashMap::get. -/
def lookupA {κ α : Type} [DecidableEq κ] : List (κ × α) → κ → Option α
  | [], _ => none
  | (k, v) :: rest, key => if k = key then some v else lookupA rest key

/-- Association-list insert: replace the existing binding or append, as
HashMap::insert / entry().or_insert followed by mutation. -/
def insertA {κ α : Type} [DecidableEq κ] : List (κ × α) → κ → α → List (κ × α)
  | [], key, v => [(key, v)]
  | (k, w) :: rest, key, v =>
      if k = key then (key, v) :: rest else (k, w) :: insertA rest key v

theorem lookupA_insertA_self {κ α : Type} [DecidableEq κ]
    (m : List (κ × α)) (k : κ) (v : α) : lookupA (insertA m k v) k = some v := by
  induction m with
  | nil => simp [insertA, lookupA]
  | cons hd tl ih =>
      obtain ⟨k', w⟩ := hd
      by_cases h : k' = k
      · simp [insertA, h, lookupA]
      · simp [insertA, h, lookupA, ih]

theorem lookupA_insertA_ne {κ α : Type} [DecidableEq κ]
    (m : List (κ × α)) (key k : κ) (v : α) (hne : key ≠ k) :
    lookupA (insertA m key v) k = lookupA m k := by
  induction m with
  | nil => simp [insertA, lookupA, hne]
  | cons hd tl ih =>
      obtain ⟨k', w⟩ := hd
      by_cases h : k' = key
      · subst h
        simp [insertA, lookupA, hne]
      · simp [insertA, h, lookupA, ih]

theorem mem_insertA {κ α : Type} [DecidableEq κ]
    {m : List (κ × α)} {key : κ} {v : α} {p : κ × α}
    (hp : p ∈ insertA m key v) : p = (key, v) ∨ p ∈ m := by
  induction m with
  | nil => simpa [insertA] using hp
  | cons hd tl ih =>
      obtain ⟨k', w⟩ := hd
      by_cases h : k' = key
      · simp [insertA, h] at hp
        rcases hp with h1 | h1
        · exact Or.inl h1
        · exact Or.inr (List.mem_cons_of_mem _ h1)
      · simp [insertA, h] at hp
        rcases hp with h1 | h1
        · exact Or.inr (by simp [h1])
        · rcases ih h1 with h2 | h2
          · exact Or.inl h2
          · exact Or.inr (List.mem_cons_of_mem _ h2)

theorem lookupA_mem {κ α : Type} [DecidableEq κ]
    {m : List (κ × α)} {k : κ} {v : α} (h : lookupA m k = some v) : (k, v) ∈ m := by
  induction m with
  | nil => simp [lookupA] at h
  | cons hd tl ih =>
      obtain ⟨k', w⟩ := hd
      by_cases hk : k' = k
      · subst hk
        simp [lookupA] at h
        simp [h]
      · simp [lookupA, hk] at h
        exact List.mem_cons_of_mem _ (ih h)

theorem mem_keys_insertA {κ α : Type} [DecidableEq κ]
    {m : List (κ × α)} {key a : κ} {v : α}
    (h : a ∈ (insertA m key v).map Prod.fst) : a ∈ m.map Prod.fst ∨ a = key := by
  rcases List.mem_map.mp h with ⟨p, hp, hfst⟩
  rcases mem_insertA hp with h1 | h1
  · right
    rw [h1] at hfst
    exact hfst.symm
  · left
    exact List.mem_map.mpr ⟨p, h1, hfst⟩

theorem nodup_keys_insertA {κ α : Type} [DecidableEq κ]
    {m : List (κ × α)} (key : κ) (v : α)
    (h : (m.map Prod.fst).Nodup) : ((insertA m key v).map Prod.fst).Nodup := by
  induction m with
  | nil => simp [insertA]
  | cons hd tl ih =>
      obtain ⟨k', w⟩ := hd
      rw [List.map_cons, List.nodup_cons] at h
      by_cases hk : k' = key
      · show ((insertA ((k', w) :: tl) key v).map Prod.fst).Nodup
        rw [show insertA ((k', w) :: tl) key v = (key, v) :: tl by simp [insertA, hk]]
        rw [List.map_cons, List.nodup_cons]
        exact ⟨by rw [← hk]; exact h.1, h.2⟩
      · show ((insertA ((k', w) :: tl) key v).map Prod.fst).Nodup
        rw [show insertA ((k', w) :: tl) key v = (k', w) :: insertA tl key v by
          simp [insertA, hk]]
        rw [List.map_cons, List.nodup_cons]
        refine ⟨?_, ih h.2⟩
        intro hmem
        rcases mem_keys_insertA hmem with h1 | h1
        · exact h.1 h1
        · exact hk h1

namespace Stats

/-- src/stats.rs TrafficData: one bucket of accumulated traffic. -/
structure TrafficData where
  bytes : Nat
  packets : Nat
  first_seen : Nat
  last_seen : Nat
deriving DecidableEq

/-- src/stats.rs StatsData: the open accumulator plus closed-window history. -/
structure StatsData where
  current : List (String × TrafficData)
  history : List (Nat × List (String × TrafficData))
deriving DecidableEq

/-- TrafficStats::new starts empty. -/
def initStats : StatsData := ⟨[], []⟩

/-- Duration::from_secs(3600), fixed in TrafficStats::new. -/
def retention_period : Nat := 3600

/-- SystemTime::duration_since: fails (none) when the argument is later than
`now`, i.e. when the clock jumped backwards. -/
def duration_since (now ts : Nat) : Option Nat :=
  if ts ≤ now then some (now - ts) else none

/-- TrafficStats::add_traffic. -/
def add_traffic (st : StatsData) (now : Nat) (service : String)
    (bytes packets : Nat) : StatsData :=
  let old := (lookupA st.current service).getD ⟨0, 0, now, now⟩
  let updated : TrafficData :=
    { old with bytes := old.bytes + bytes, packets := old.packets + packets,
               last_seen := now }
  { st with current := insertA st.current service updated }

/-- TrafficStats::clean_old_data body: retain entries whose computed age is
strictly below the retention period; a failed duration computation keeps
nothing (`unwrap_or(false)`). -/
def clean_old_data (history : List (Nat × List (String × TrafficData)))
    (now : Nat) : List (Nat × List (String × TrafficData)) :=
  history.filter (fun e =>
    ((duration_since now e.1).map (fun dur => decide (dur < retention_period))).getD false)

/-- Inner loop of TrafficStats::merge_history for one closed window. -/
def mergeOne (acc : List (String × (Nat × Nat)))
    (stats : List (String × TrafficData)) : List (String × (Nat × Nat)) :=
  stats.foldl (fun acc kv =>
    let e := (lookupA acc kv.1).getD (0, 0)
    insertA acc kv.1 (e.1 + kv.2.bytes, e.2 + kv.2.packets)) acc

/-- TrafficStats::merge_history. -/
def merge_history (history : List (Nat × List (String × TrafficData))) :
    List (String × (Nat × Nat)) :=
  history.foldl (fun acc e => mergeOne acc e.2) []

/-- The close-window step shared by get_stats and get_detailed_stats: push the
non-empty open accumulator onto history, stamped `now`, and clear it. -/
def close_window (st : StatsData) (now : Nat) : StatsData :=
  if st.current = [] then st
  else { current := [], history := st.history ++ [(now, st.current)] }

/-- TrafficStats::get_stats: close the window, purge, merge. -/
def get_stats (st : StatsData) (now : Nat) :
    List (String × (Nat × Nat)) × StatsData :=
  let st1 := close_window st now
  let st2 : StatsData := { st1 with history := clean_old_data st1.history now }
  (merge_history st2.history, st2)

/-- Inner loop of TrafficStats::get_detailed_stats for one closed window:
sum bytes/packets, take min first_seen and max last_seen. -/
def mergeDetailedOne (acc : List (String × TrafficData))
    (stats : List (String × TrafficData)) : List (String × TrafficData) :=
  stats.foldl (fun acc kv =>
    let td := kv.2
    let e := (lookupA acc kv.1).getD ⟨0, 0, td.first_seen, td.last_seen⟩
    insertA acc kv.1
      { bytes := e.bytes + td.bytes, packets := e.packets + td.packets,
        first_seen := if td.first_seen < e.first_seen then td.first_seen else e.first_seen,
        last_seen := if td.last_seen > e.last_seen then td.last_seen else e.last_seen }) acc

/-- The merge loop of TrafficStats::get_detailed_stats. -/
def merge_detailed (history : List (Nat × List (String × TrafficData))) :
    List (String × TrafficData) :=
  history.foldl (fun acc e => mergeDetailedOne acc e.2) []

/-- TrafficStats::get_detailed_stats: close the window, purge, detailed merge. -/
def get_detailed_stats (st : StatsData) (now : Nat) :
    List (String × TrafficData) × StatsData :=
  let st1 := close_window st now
  let st2 : StatsData := { st1 with history := clean_old_data st1.history now }
  (merge_detailed st2.history, st2)

/-- TrafficStats::reset_stats. -/
def reset_stats (_st : StatsData) : StatsData := ⟨[], []⟩

/-- The merge step of TrafficStats::get_service_stats. -/
def combineTD (res hist : TrafficData) : TrafficData :=
  { bytes := res.bytes + hist.bytes, packets := res.packets + hist.packets,
    first_seen := if hist.first_seen < res.first_seen then hist.first_seen else res.first_seen,
    last_seen := if hist.last_seen > res.last_seen then hist.last_seen else res.last_seen }

/-- TrafficStats::get_service_stats: read-only; seeds the result from the open
bucket, then folds every historical bucket for the label into it.  Returns the
(unchanged) state alongside the result to make the frame property explicit. -/
def get_service_stats (st : StatsData) (service : String) :
    Option TrafficData × StatsData :=
  let init := lookupA st.current service
  let result := st.history.foldl (fun res e =>
    match lookupA e.2 service with
    | none => res
    | some h =>
        match res with
        | some r => some (combineTD r h)
        | none => some h) init
  (result, st)

/-- One add_traffic call with its clock reading (no intervening query). -/
structure AddOp where
  now : Nat
  service : String
  bytes : Nat
  packets : Nat
deriving DecidableEq

/-- Replay a sequence of add_traffic calls. -/
def addSeq (st : StatsData) (ops : List AddOp) : StatsData :=
  ops.foldl (fun s o => add_traffic s o.now o.service o.bytes o.packets) st

/-- Total bytes a sequence of add_traffic calls reports for one label. -/
def sumBytes (ops : List AddOp) (l : String) : Nat :=
  (ops.map (fun o => if o.service = l then o.bytes else 0)).sum

/-- Total packets a sequence of add_traffic calls reports for one label. -/
def sumPackets (ops : List AddOp) (l : String) : Nat :=
  (ops.map (fun o => if o.service = l then o.packets else 0)).sum

/-- One public aggregator operation, with the clock reading its body uses. -/
inductive Op where
  | add (now : Nat) (service : String) (bytes packets : Nat)
  | getStats (now : Nat)
  | getDetailed (now : Nat)
  | reset
  | getService (service : String)
deriving DecidableEq

/-- The state transition of one operation. -/
def execOp (st : StatsData) : Op → StatsData
  | .add now s b p => add_traffic st now s b p
  | .getStats now => (get_stats st now).2
  | .getDetailed now => (get_detailed_stats st now).2
  | .reset => reset_stats st
  | .getService s => (get_service_stats st s).2

/-- Replay a trace of operations; states reachable from `initStats` are
exactly the values of `execTrace initStats ops`. -/
def execTrace (st : StatsData) (ops : List Op) : StatsData :=
  ops.foldl execOp st

/-- The clock reading an operation consumes, when it reads the clock. -/
def opTime : Op → Option Nat
  | .add now _ _ _ => some now
  | .getStats now => some now
  | .getDetailed now => some now
  | .reset => none
  | .getService _ => none

/-- The clock readings of a trace are nondecreasing and bounded below by t. -/
def chrono : Nat → List Op → Prop
  | _, [] => True
  | t, op :: rest =>
      match opTime op with
      | some n => t ≤ n ∧ chrono n rest
      | none => chrono t rest

end Stats

namespace Nftables

/-- src/main.rs TrafficCategory. -/
inductive TrafficCategory where
  | Web
  | Database
  | Streaming
  | FileTransfer
  | Gaming
  | Voip
  | Malicious
  | Unknown
deriving DecidableEq

/-- src/main.rs ClassifiedTraffic. -/
structure ClassifiedTraffic where
  bytes : Nat
  packets : Nat
  protocol : String
  source_ip : String
  destination_ip : String
  source_port : Option Nat
  destination_port : Option Nat
  application : String
  category : TrafficCategory
deriving DecidableEq

/-- src/main.rs NftablesClassifier state. -/
structure NftablesClassifier where
  rules : List (String × TrafficCategory)
  application_map : List ((Nat × String) × String)
  malicious_ips : List String
  cache : List (String × ClassifiedTraffic)
deriving DecidableEq

/-- The seeded application map built by NftablesClassifier::new
(initialize_application_map), in insertion order. -/
def seed_application_map : List ((Nat × String) × String) :=
  [((80, "tcp"), "HTTP"), ((443, "tcp"), "HTTPS"), ((8080, "tcp"), "HTTP-Alt"),
   ((3306, "tcp"), "MySQL"), ((5432, "tcp"), "PostgreSQL"),
   ((27017, "tcp"), "MongoDB"), ((53, "udp"), "DNS"), ((53, "tcp"), "DNS")]

/-- The seeded rules table built by NftablesClassifier::new (initialize_rules). -/
def seed_rules : List (String × TrafficCategory) :=
  [("http", .Web), ("https", .Web), ("mysql", .Database),
   ("postgresql", .Database)]

/-- NftablesClassifier::new. -/
def newClassifier : NftablesClassifier :=
  { rules := seed_rules, application_map := seed_application_map,
    malicious_ips := [], cache := [] }

/-- Whether `pat` occurs as a contiguous run inside `l` (str::contains). -/
def listContains (pat : List Char) : List Char → Bool
  | [] => pat.isEmpty
  | c :: rest => pat.isPrefixOf (c :: rest) || listContains pat rest

/-- str::contains on strings. -/
def containsSub (s pat : String) : Bool :=
  listContains pat.data s.data

/-- str::to_lowercase (ASCII suffices for the labels this program uses). -/
def toLowerStr (s : String) : String :=
  String.mk (s.data.map Char.toLower)

/-- The well-known-port fallback arm of detect_application (the match after
the application-map miss). -/
def wellKnownFallback (p : Nat) : String :=
  if 20 ≤ p ∧ p ≤ 21 then "FTP"
  else if p = 22 then "SSH"
  else if p = 25 then "SMTP"
  else if p = 53 then "DNS"
  else if p = 80 then "HTTP"
  else if p = 443 then "HTTPS"
  else if p = 3306 then "MySQL"
  else if p = 5432 then "PostgreSQL"
  else "Unknown"

/-- NftablesClassifier::detect_application, over the classifier's map. -/
def detect_application (appMap : List ((Nat × String) × String))
    (port : Option Nat) (protocol : String) : String :=
  match port with
  | some p =>
      match lookupA appMap (p, protocol) with
      | some app => app
      | none => wellKnownFallback p
  | none => "Unknown"

/-- NftablesClassifier::detect_category (the protocol argument is unused in
the source as well). -/
def detect_category (application : String) (port : Option Nat)
    (_protocol : String) : TrafficCategory :=
  let app_lower := toLowerStr application
  if containsSub app_lower "http" || containsSub app_lower "web" then .Web
  else if containsSub app_lower "mysql" || containsSub app_lower "postgres" then .Database
  else
    match port with
    | some p =>
        if p = 80 ∨ p = 443 ∨ p = 8080 ∨ p = 8443 then .Web
        else if p = 3306 ∨ p = 5432 ∨ p = 27017 then .Database
        else if p = 21 ∨ p = 22 then .FileTransfer
        else .Unknown
    | none => .Unknown

/-- The cache key format string of classify_traffic: absent ports render
as 0 (`unwrap_or(0)`). -/
def cache_key (source_ip destination_ip : String)
    (source_port destination_port : Option Nat) (protocol : String) : String :=
  source_ip ++ "-" ++ destination_ip ++ "-" ++ toString (source_port.getD 0)
    ++ "-" ++ toString (destination_port.getD 0) ++ "-" ++ protocol

/-- NftablesClassifier::classify_traffic: look up the cache key; on a hit
return the cached record unchanged, on a miss classify and insert. -/
def classify_traffic (c : NftablesClassifier) (source_ip destination_ip : String)
    (source_port destination_port : Option Nat) (protocol : String)
    (bytes : Nat) : ClassifiedTraffic × NftablesClassifier :=
  let key := cache_key source_ip destination_ip source_port destination_port protocol
  match lookupA c.cache key with
  | some cached => (cached, c)
  | none =>
      let application := detect_application c.application_map destination_port protocol
      let category := detect_category application destination_port protocol
      let classified : ClassifiedTraffic :=
        { bytes := bytes, packets := 1, protocol := protocol,
          source_ip := source_ip, destination_ip := destination_ip,
          source_port := source_port, destination_port := destination_port,
          application := application, category := category }
      (classified, { c with cache := insertA c.cache key classified })

end Nftables

namespace Classifier

/-- The port table of TrafficClassifier::classify_packet (the match on the
big-endian destination port). -/
def portLabel (dport : Nat) : String :=
  if dport = 80 ∨ dport = 8080 then "http"
  else if dport = 443 then "https"
  else if dport = 53 then "dns"
  else if dport = 1935 then "rtmp"
  else if dport = 3478 ∨ dport = 5349 then "webrtc"
  else if 8000 ≤ dport ∧ dport ≤ 9000 then "streaming"
  else "other"

/-- TrafficClassifier::classify_packet over a byte buffer: buffers shorter
than 36 bytes are "unknown"; otherwise the destination port is read
big-endian from bytes 34 and 35. -/
def classify_packet (data : List Nat) : String :=
  if data.length < 36 then "unknown"
  else portLabel (data.getD 34 0 * 256 + data.getD 35 0)

/-- A 36-byte buffer whose bytes 34-35 hold `p` big-endian. -/
def mkBuf (p : Nat) : List Nat :=
  List.replicate 34 0 ++ [p / 256, p % 256]

end Classifier

/-- Claim C8: on the raw-packet path, a buffer shorter than 36 bytes yields
"unknown" without error; otherwise the destination port read big-endian from
bytes 34-35 is mapped by the fixed table 80,8080 to "http", 443 to "https",
53 to "dns", 1935 to "rtmp", 3478,5349 to "webrtc", any other port in
8000-9000 to "streaming", and every remaining port to "other"; in particular
port 1935 yields "rtmp", 8500 "streaming", 9001 "other", and a 30-byte buffer
"unknown". -/
theorem C8_classify_packet :
    (∀ data : List Nat, data.length < 36 →
        Classifier.classify_packet data = "unknown")
    ∧ (∀ data : List Nat, 36 ≤ data.length →
        Classifier.classify_packet data
          = Classifier.portLabel (data.getD 34 0 * 256 + data.getD 35 0))
    ∧ (∀ p, 8000 ≤ p → p ≤ 9000 → p ≠ 8080 →
        Classifier.portLabel p = "streaming")
    ∧ (∀ p, ¬(p = 80 ∨ p = 8080) → p ≠ 443 → p ≠ 53 → p ≠ 1935 →
        ¬(p = 3478 ∨ p = 5349) → ¬(8000 ≤ p ∧ p ≤ 9000) →
        Classifier.portLabel p = "other")
    ∧ (Classifier.portLabel 80 = "http" ∧ Classifier.portLabel 8080 = "http"
       ∧ Classifier.portLabel 443 = "https" ∧ Classifier.portLabel 53 = "dns"
       ∧ Classifier.portLabel 1935 = "rtmp"
       ∧ Classifier.portLabel 3478 = "webrtc"
       ∧ Classifier.portLabel 5349 = "webrtc"
       ∧ Classifier.classify_packet (Classifier.mkBuf 1935) = "rtmp"
       ∧ Classifier.classify_packet (Classifier.mkBuf 8500) = "streaming"
       ∧ Classifier.classify_packet (Classifier.mkBuf 9001) = "other"
       ∧ Classifier.classify_packet (List.replicate 30 0) = "unknown") := by
  refine ⟨?_, ?_, ?_, ?_, ?_⟩
  · intro data h
    simp [Classifier.classify_packet, h]
  · intro data h
    simp [Classifier.classify_packet, Nat.not_lt.mpr h]
  · intro p h1 h2 h3
    have hweb : ¬(p = 80 ∨ p = 8080) := by omega
    have hs : p ≠ 443 := by omega
    have hd : p ≠ 53 := by omega
    have hr : p ≠ 1935 := by omega
    have hw : ¬(p = 3478 ∨ p = 5349) := by omega
    unfold Classifier.portLabel
    rw [if_neg hweb, if_neg hs, if_neg hd, if_neg hr, if_neg hw,
        if_pos ⟨h1, h2⟩]
  · intro p h1 h2 h3 h4 h5 h6
    unfold Classifier.portLabel
    rw [if_neg h1, if_neg h2, if_neg h3, if_neg h4, if_neg h5, if_neg h6]
  · decide

/-- Witness for C8 at concrete buffers and ports. -/
theorem C8_classify_packet_witness :
    Classifier.classify_packet (List.replicate 30 0) = "unknown"
    ∧ Classifier.classify_packet (Classifier.mkBuf 1935)
        = Classifier.portLabel ((Classifier.mkBuf 1935).getD 34 0 * 256
            + (Classifier.mkBuf 1935).getD 35 0)
    ∧ Classifier.portLabel 8500 = "streaming"
    ∧ Classifier.portLabel 9001 = "other" :=
  ⟨C8_classify_packet.1 (List.replicate 30 0) (by decide),
   C8_classify_packet.2.1 (Classifier.mkBuf 1935) (by decide),
   C8_classify_packet.2.2.1 8500 (by decide) (by decide) (by decide),
   C8_classify_packet.2.2.2.1 9001 (by decide) (by decide) (by decide)
     (by decide) (by decide) (by decide)⟩

/-- Claim C6: on a cache miss the service label comes from the seeded exact
(port, protocol) application map first; only when no exact entry exists does
it fall back to the well-known-port table 20-21 FTP, 22 SSH, 25 SMTP, 53 DNS,
80 HTTP, 443 HTTPS, 3306 MySQL, 5432 PostgreSQL, otherwise "Unknown"
(also "Unknown" when no destination port is present); classifying a tcp flow
to destination port 80 yields label "HTTP" and category Web. -/
theorem C6_detect_application :
    (∀ proto : String,
        Nftables.detect_application Nftables.seed_application_map none proto
          = "Unknown")
    ∧ (∀ (p : Nat) (proto l : String),
        lookupA Nftables.seed_application_map (p, proto) = some l →
        Nftables.detect_application Nftables.seed_application_map (some p) proto
          = l)
    ∧ (∀ (p : Nat) (proto : String),
        lookupA Nftables.seed_application_map (p, proto) = none →
        Nftables.detect_application Nftables.seed_application_map (some p) proto
          = Nftables.wellKnownFallback p)
    ∧ (∀ p, 20 ≤ p → p ≤ 21 → Nftables.wellKnownFallback p = "FTP")
    ∧ (lookupA Nftables.seed_application_map (80, "tcp") = some "HTTP"
       ∧ lookupA Nftables.seed_application_map (443, "tcp") = some "HTTPS"
       ∧ lookupA Nftables.seed_application_map (3306, "tcp") = some "MySQL"
       ∧ lookupA Nftables.seed_application_map (53, "udp") = some "DNS"
       ∧ lookupA Nftables.seed_application_map (53, "tcp") = some "DNS"
       ∧ Nftables.wellKnownFallback 22 = "SSH"
       ∧ Nftables.wellKnownFallback 25 = "SMTP"
       ∧ Nftables.wellKnownFallback 53 = "DNS"
       ∧ Nftables.wellKnownFallback 80 = "HTTP"
       ∧ Nftables.wellKnownFallback 443 = "HTTPS"
       ∧ Nftables.wellKnownFallback 3306 = "MySQL"
       ∧ Nftables.wellKnownFallback 5432 = "PostgreSQL"
       ∧ Nftables.wellKnownFallback 12345 = "Unknown"
       ∧ Nftables.newClassifier.application_map = Nftables.seed_application_map
       ∧ (Nftables.classify_traffic Nftables.newClassifier "192.168.1.100"
            "93.184.216.34" (some 54321) (some 80) "tcp" 1500).1.application
           = "HTTP"
       ∧ (Nftables.classify_traffic Nftables.newClassifier "192.168.1.100"
            "93.184.216.34" (some 54321) (some 80) "tcp" 1500).1.category
           = Nftables.TrafficCategory.Web) := by
  refine ⟨?_, ?_, ?_, ?_, ?_⟩
  · intro proto
    rfl
  · intro p proto l h
    simp [Nftables.detect_application, h]
  · intro p proto h
    simp [Nftables.detect_application, h]
  · intro p h1 h2
    unfold Nftables.wellKnownFallback
    rw [if_pos ⟨h1, h2⟩]
  · decide

/-- Witness for C6: application-map hit at (80, tcp) and fallback at (22, icmp). -/
theorem C6_detect_application_witness :
    Nftables.detect_application Nftables.seed_application_map (some 80) "tcp"
      = "HTTP"
    ∧ Nftables.detect_application Nftables.seed_application_map (some 22) "icmp"
        = Nftables.wellKnownFallback 22
    ∧ Nftables.wellKnownFallback 20 = "FTP" :=
  ⟨C6_detect_application.2.1 80 "tcp" "HTTP" (by decide),
   C6_detect_application.2.2.1 22 "icmp" (by decide),
   C6_detect_application.2.2.2.1 20 (by decide) (by decide)⟩

/-- Claim C7: category derivation is a deterministic pure function of
(label, destination port, protocol): a lowercased label containing "http" or
"web" gives Web; otherwise "mysql" or "postgres" gives Database; otherwise
the port decides via 80,443,8080,8443 Web; 3306,5432,27017 Database;
21,22 FileTransfer; in every remaining case (including no port) Unknown. -/
theorem C7_detect_category :
    (∀ (app : String) (port : Option Nat) (proto proto' : String),
        Nftables.detect_category app port proto
          = Nftables.detect_category app port proto')
    ∧ (∀ (app : String) (port : Option Nat) (proto : String),
        (Nftables.containsSub (Nftables.toLowerStr app) "http"
          || Nftables.containsSub (Nftables.toLowerStr app) "web") = true →
        Nftables.detect_category app port proto = Nftables.TrafficCategory.Web)
    ∧ (∀ (app : String) (port : Option Nat) (proto : String),
        (Nftables.containsSub (Nftables.toLowerStr app) "http"
          || Nftables.containsSub (Nftables.toLowerStr app) "web") = false →
        (Nftables.containsSub (Nftables.toLowerStr app) "mysql"
          || Nftables.containsSub (Nftables.toLowerStr app) "postgres") = true →
        Nftables.detect_category app port proto
          = Nftables.TrafficCategory.Database)
    ∧ (∀ (app : String) (proto : String) (p : Nat),
        (Nftables.containsSub (Nftables.toLowerStr app) "http"
          || Nftables.containsSub (Nftables.toLowerStr app) "web") = false →
        (Nftables.containsSub (Nftables.toLowerStr app) "mysql"
          || Nftables.containsSub (Nftables.toLowerStr app) "postgres") = false →
        Nftables.detect_category app (some p) proto
          = (if p = 80 ∨ p = 443 ∨ p = 8080 ∨ p = 8443 then
               Nftables.TrafficCategory.Web
             else if p = 3306 ∨ p = 5432 ∨ p = 27017 then
               Nftables.TrafficCategory.Database
             else if p = 21 ∨ p = 22 then Nftables.TrafficCategory.FileTransfer
             else Nftables.TrafficCategory.Unknown))
    ∧ (∀ (app : String) (proto : String),
        (Nftables.containsSub (Nftables.toLowerStr app) "http"
          || Nftables.containsSub (Nftables.toLowerStr app) "web") = false →
        (Nftables.containsSub (Nftables.toLowerStr app) "mysql"
          || Nftables.containsSub (Nftables.toLowerStr app) "postgres") = false →
        Nftables.detect_category app none proto
          = Nftables.TrafficCategory.Unknown)
    ∧ (Nftables.detect_category "HTTP-Alt" none "tcp"
         = Nftables.TrafficCategory.Web
       ∧ Nftables.detect_category "MongoDB" (some 27017) "tcp"
           = Nftables.TrafficCategory.Database
       ∧ Nftables.detect_category "Unknown" (some 8443) "tcp"
           = Nftables.TrafficCategory.Web
       ∧ Nftables.detect_category "Unknown" (some 21) "tcp"
           = Nftables.TrafficCategory.FileTransfer
       ∧ Nftables.detect_category "Unknown" (some 12345) "tcp"
           = Nftables.TrafficCategory.Unknown
       ∧ Nftables.detect_category "Unknown" none "tcp"
           = Nftables.TrafficCategory.Unknown
       ∧ Nftables.detect_category "PostgreSQL" none "udp"
           = Nftables.TrafficCategory.Database) := by
  refine ⟨?_, ?_, ?_, ?_, ?_, ?_⟩
  · intro app port proto proto'
    rfl
  · intro app port proto h
    simp [Nftables.detect_category, h]
  · intro app port proto h1 h2
    simp [Nftables.detect_category, h1, h2]
  · intro app proto p h1 h2
    simp [Nftables.detect_category, h1, h2]
  · intro app proto h1 h2
    simp [Nftables.detect_category, h1, h2]
  · decide

/-- Witness for C7 at concrete labels and ports. -/
theorem C7_detect_category_witness :
    Nftables.detect_category "HTTPS" (some 12345) "tcp"
      = Nftables.TrafficCategory.Web
    ∧ Nftables.detect_category "MySQL" none "tcp"
        = Nftables.TrafficCategory.Database
    ∧ Nftables.detect_category "SSH" (some 22) "tcp"
        = (if (22 : Nat) = 80 ∨ (22 : Nat) = 443 ∨ (22 : Nat) = 8080
              ∨ (22 : Nat) = 8443 then
             Nftables.TrafficCategory.Web
           else if (22 : Nat) = 3306 ∨ (22 : Nat) = 5432 ∨ (22 : Nat) = 27017
             then Nftables.TrafficCategory.Database
           else if (22 : Nat) = 21 ∨ (22 : Nat) = 22 then
             Nftables.TrafficCategory.FileTransfer
           else Nftables.TrafficCategory.Unknown)
    ∧ Nftables.detect_category "SSH" none "tcp"
        = Nftables.TrafficCategory.Unknown :=
  ⟨C7_detect_category.2.1 "HTTPS" (some 12345) "tcp" (by decide),
   C7_detect_category.2.2.1 "MySQL" none "tcp" (by decide) (by decide),
   C7_detect_category.2.2.2.1 "SSH" "tcp" 22 (by decide) (by decide),
   C7_detect_category.2.2.2.2.1 "SSH" "tcp" (by decide) (by decide)⟩


/-- Cache-hit behavior of classify_traffic: when the key is cached the call
returns the cached record and the unchanged state. -/
theorem classify_traffic_hit (c : Nftables.NftablesClassifier)
    (sip dip : String) (sp dp : Option Nat) (proto : String) (b : Nat)
    (v : Nftables.ClassifiedTraffic)
    (h : lookupA c.cache (Nftables.cache_key sip dip sp dp proto) = some v) :
    Nftables.classify_traffic c sip dip sp dp proto b = (v, c) := by
  simp [Nftables.classify_traffic, h]

/-- Claim C2: two classify calls on an identical flow tuple, with any two
byte counts, give an identical result the second time — the second call
returns the cached ClassifiedFlow (same label, category and stored byte
count) and leaves the classifier state, cache included, unchanged; on a
fresh key the first call stores its own byte count. -/
theorem C2_cache_hit (c : Nftables.NftablesClassifier) (sip dip : String)
    (sp dp : Option Nat) (proto : String) (b1 b2 : Nat) :
    ((Nftables.classify_traffic
        (Nftables.classify_traffic c sip dip sp dp proto b1).2
        sip dip sp dp proto b2).1
      = (Nftables.classify_traffic c sip dip sp dp proto b1).1)
    ∧ ((Nftables.classify_traffic
        (Nftables.classify_traffic c sip dip sp dp proto b1).2
        sip dip sp dp proto b2).2
      = (Nftables.classify_traffic c sip dip sp dp proto b1).2)
    ∧ (lookupA c.cache (Nftables.cache_key sip dip sp dp proto) = none →
        (Nftables.classify_traffic c sip dip sp dp proto b1).1.bytes = b1) := by
  cases h : lookupA c.cache (Nftables.cache_key sip dip sp dp proto) with
  | some cached =>
      have h1 := classify_traffic_hit c sip dip sp dp proto b1 cached h
      have h2 := classify_traffic_hit c sip dip sp dp proto b2 cached h
      refine ⟨?_, ?_, ?_⟩
      · rw [h1, h2]
      · rw [h1, h2]
      · intro hcontra
        exact Option.noConfusion hcontra
  | none =>
      have hfirst : (Nftables.classify_traffic c sip dip sp dp proto b1).2.cache
          = insertA c.cache (Nftables.cache_key sip dip sp dp proto)
              (Nftables.classify_traffic c sip dip sp dp proto b1).1 := by
        simp [Nftables.classify_traffic, h]
      have hhit : lookupA
          (Nftables.classify_traffic c sip dip sp dp proto b1).2.cache
          (Nftables.cache_key sip dip sp dp proto)
          = some (Nftables.classify_traffic c sip dip sp dp proto b1).1 := by
        rw [hfirst]
        exact lookupA_insertA_self _ _ _
      have h2 := classify_traffic_hit
        (Nftables.classify_traffic c sip dip sp dp proto b1).2
        sip dip sp dp proto b2
        (Nftables.classify_traffic c sip dip sp dp proto b1).1 hhit
      refine ⟨?_, ?_, ?_⟩
      · rw [h2]
      · rw [h2]
      · intro _
        simp [Nftables.classify_traffic, h]

/-- Claim C10: the cache key renders an absent port as 0, so a tuple with an
absent source port and the same tuple with source port 0 share one cache key;
after classifying the first, classifying the second returns the first
tuple's cached record verbatim — absent source port, the first call's byte
count — instead of classifying the second tuple. -/
theorem C10_port_zero_collision :
    (∀ (sip dip : String) (dp : Option Nat) (proto : String),
        Nftables.cache_key sip dip none dp proto
          = Nftables.cache_key sip dip (some 0) dp proto)
    ∧ ((Nftables.classify_traffic
          (Nftables.classify_traffic Nftables.newClassifier "192.168.1.1"
            "10.0.0.1" none (some 80) "tcp" 100).2
          "192.168.1.1" "10.0.0.1" (some 0) (some 80) "tcp" 999).1
        = (Nftables.classify_traffic Nftables.newClassifier "192.168.1.1"
            "10.0.0.1" none (some 80) "tcp" 100).1)
    ∧ (Nftables.classify_traffic Nftables.newClassifier "192.168.1.1"
        "10.0.0.1" none (some 80) "tcp" 100).1.source_port = none
    ∧ (Nftables.classify_traffic Nftables.newClassifier "192.168.1.1"
        "10.0.0.1" none (some 80) "tcp" 100).1.bytes = 100
    ∧ ((Nftables.classify_traffic
          (Nftables.classify_traffic Nftables.newClassifier "192.168.1.1"
            "10.0.0.1" none (some 80) "tcp" 100).2
          "192.168.1.1" "10.0.0.1" (some 0) (some 80) "tcp" 999).2
        = (Nftables.classify_traffic Nftables.newClassifier "192.168.1.1"
            "10.0.0.1" none (some 80) "tcp" 100).2) := by
  exact ⟨fun sip dip dp proto => rfl, by decide⟩

/-- Witness for C2: a fresh key on a new classifier, with differing byte
counts on the two calls. -/
theorem C2_cache_hit_witness :
    (Nftables.classify_traffic Nftables.newClassifier "10.0.0.1" "10.0.0.2"
      (some 1) (some 80) "tcp" 7).1.bytes = 7 :=
  (C2_cache_hit Nftables.newClassifier "10.0.0.1" "10.0.0.2" (some 1) (some 80)
    "tcp" 7 9).2.2 (by decide)

/-- Membership in the purged history: a retained entry comes from the input
and its timestamp is in the past by strictly less than the retention period. -/
theorem mem_clean_old_data {h : List (Nat × List (String × Stats.TrafficData))}
    {now : Nat} {e : Nat × List (String × Stats.TrafficData)}
    (he : e ∈ Stats.clean_old_data h now) :
    e ∈ h ∧ e.1 ≤ now ∧ now - e.1 < Stats.retention_period := by
  have hmem := List.mem_filter.mp he
  refine ⟨hmem.1, ?_⟩
  have hpred := hmem.2
  by_cases hle : e.1 ≤ now
  · refine ⟨hle, ?_⟩
    simp [Stats.duration_since, hle] at hpred
    exact hpred
  · simp [Stats.duration_since, hle] at hpred

/-- Claim C1 counterexample: a closed window stamped 100 observed at clock 50
(a backward clock jump) is purged by get_stats and contributes nothing,
rather than being treated as age zero and retained. -/
theorem C1_counterexample :
    (Stats.execTrace Stats.initStats
        [.add 100 "x" 7 1, .getStats 100]).history
      = [(100, [("x", ⟨7, 1, 100, 100⟩)])]
    ∧ (Stats.get_stats (Stats.execTrace Stats.initStats
          [.add 100 "x" 7 1, .getStats 100]) 50).2.history = []
    ∧ lookupA (Stats.get_stats (Stats.execTrace Stats.initStats
          [.add 100 "x" 7 1, .getStats 100]) 50).1 "x" = none := by
  decide

/-- Claim C1 (amended): the purge step of get_stats/get_detailed_stats treats
a failed duration computation (a close_timestamp in the future of the current
clock) as expired, so such an entry is purged and does not contribute: every
retained history entry has close_timestamp at most `now`, and the returned
totals merge exactly the retained entries. -/
theorem C1_amended (st : Stats.StatsData) (now : Nat) :
    (∀ e ∈ (Stats.get_stats st now).2.history, e.1 ≤ now)
    ∧ (Stats.get_stats st now).1
        = Stats.merge_history (Stats.get_stats st now).2.history
    ∧ (∀ e ∈ (Stats.get_detailed_stats st now).2.history, e.1 ≤ now)
    ∧ (Stats.get_detailed_stats st now).1
        = Stats.merge_detailed (Stats.get_detailed_stats st now).2.history := by
  refine ⟨?_, rfl, ?_, rfl⟩
  · intro e he
    exact (mem_clean_old_data he).2.1
  · intro e he
    exact (mem_clean_old_data he).2.1

/-- Witness for C1 (amended) at a concrete state and clock. -/
theorem C1_amended_witness : (10 : Nat) ≤ 20 :=
  (C1_amended ⟨[], [(10, [("x", ⟨1, 1, 5, 6⟩)])]⟩ 20).1
    (10, [("x", ⟨1, 1, 5, 6⟩)]) (by decide)

/-- Claim C5: after get_stats or get_detailed_stats, every history entry the
state retains is strictly younger than the retention period (3600 seconds,
fixed at construction), and the returned totals are the merge of exactly the
retained entries — so no entry of age at least the retention period remains
or contributes. -/
theorem C5_purge (st : Stats.StatsData) (now : Nat) :
    Stats.retention_period = 3600
    ∧ (∀ e ∈ (Stats.get_stats st now).2.history,
        now - e.1 < Stats.retention_period)
    ∧ (Stats.get_stats st now).1
        = Stats.merge_history (Stats.get_stats st now).2.history
    ∧ (∀ e ∈ (Stats.get_detailed_stats st now).2.history,
        now - e.1 < Stats.retention_period)
    ∧ (Stats.get_detailed_stats st now).1
        = Stats.merge_detailed (Stats.get_detailed_stats st now).2.history := by
  refine ⟨rfl, ?_, rfl, ?_, rfl⟩
  · intro e he
    exact (mem_clean_old_data he).2.2
  · intro e he
    exact (mem_clean_old_data he).2.2

/-- Witness for C5 at a concrete state and clock. -/
theorem C5_purge_witness : (20 : Nat) - 10 < Stats.retention_period :=
  (C5_purge ⟨[], [(10, [("y", ⟨2, 2, 7, 8⟩)])]⟩ 20).2.1
    (10, [("y", ⟨2, 2, 7, 8⟩)]) (by decide)

/-- Effect of one add_traffic call on a lookup in the open accumulator. -/
theorem add_traffic_lookup (st : Stats.StatsData) (now : Nat) (s : String)
    (b p : Nat) (l : String) :
    lookupA (Stats.add_traffic st now s b p).current l =
      if s = l then
        some (let old := (lookupA st.current s).getD ⟨0, 0, now, now⟩
              { old with bytes := old.bytes + b, packets := old.packets + p,
                         last_seen := now })
      else lookupA st.current l := by
  by_cases h : s = l
  · subst h
    simp [Stats.add_traffic, lookupA_insertA_self]
  · simp [Stats.add_traffic, h, lookupA_insertA_ne _ _ _ _ h]

/-- add_traffic never touches the closed-window history. -/
theorem addSeq_history (ops : List Stats.AddOp) (st : Stats.StatsData) :
    (Stats.addSeq st ops).history = st.history := by
  induction ops generalizing st with
  | nil => rfl
  | cons o rest ih =>
      show (Stats.addSeq (Stats.add_traffic st o.now o.service o.bytes o.packets)
        rest).history = st.history
      rw [ih]
      rfl

/-- add_traffic keeps the open accumulator's keys duplicate-free. -/
theorem addSeq_nodup (ops : List Stats.AddOp) (st : Stats.StatsData)
    (h : (st.current.map Prod.fst).Nodup) :
    ((Stats.addSeq st ops).current.map Prod.fst).Nodup := by
  induction ops generalizing st with
  | nil => exact h
  | cons o rest ih =>
      exact ih (Stats.add_traffic st o.now o.service o.bytes o.packets)
        (nodup_keys_insertA _ _ h)

/-- Accumulated byte count a label shows in the open accumulator. -/
def bytesOf (m : List (String × Stats.TrafficData)) (l : String) : Nat :=
  ((lookupA m l).map Stats.TrafficData.bytes).getD 0

/-- Accumulated packet count a label shows in the open accumulator. -/
def packetsOf (m : List (String × Stats.TrafficData)) (l : String) : Nat :=
  ((lookupA m l).map Stats.TrafficData.packets).getD 0

/-- A sequence of add_traffic calls adds exactly its per-label byte sum. -/
theorem addSeq_bytes (ops : List Stats.AddOp) (st : Stats.StatsData)
    (l : String) :
    bytesOf (Stats.addSeq st ops).current l
      = bytesOf st.current l + Stats.sumBytes ops l := by
  induction ops generalizing st with
  | nil => simp [Stats.addSeq, Stats.sumBytes]
  | cons o rest ih =>
      show bytesOf (Stats.addSeq
          (Stats.add_traffic st o.now o.service o.bytes o.packets) rest).current l
        = bytesOf st.current l + Stats.sumBytes (o :: rest) l
      rw [ih]
      have hone : bytesOf
          (Stats.add_traffic st o.now o.service o.bytes o.packets).current l
          = bytesOf st.current l + (if o.service = l then o.bytes else 0) := by
        rw [bytesOf, add_traffic_lookup]
        by_cases h : o.service = l
        · subst h
          cases hl : lookupA st.current o.service with
          | none => simp [bytesOf, hl]
          | some td => simp [bytesOf, hl]
        · simp [h, bytesOf]
      rw [hone]
      have hsum : Stats.sumBytes (o :: rest) l
          = (if o.service = l then o.bytes else 0) + Stats.sumBytes rest l := by
        simp [Stats.sumBytes]
      rw [hsum]
      omega

/-- A sequence of add_traffic calls adds exactly its per-label packet sum. -/
theorem addSeq_packets (ops : List Stats.AddOp) (st : Stats.StatsData)
    (l : String) :
    packetsOf (Stats.addSeq st ops).current l
      = packetsOf st.current l + Stats.sumPackets ops l := by
  induction ops generalizing st with
  | nil => simp [Stats.addSeq, Stats.sumPackets]
  | cons o rest ih =>
      show packetsOf (Stats.addSeq
          (Stats.add_traffic st o.now o.service o.bytes o.packets) rest).current l
        = packetsOf st.current l + Stats.sumPackets (o :: rest) l
      rw [ih]
      have hone : packetsOf
          (Stats.add_traffic st o.now o.service o.bytes o.packets).current l
          = packetsOf st.current l + (if o.service = l then o.packets else 0) := by
        rw [packetsOf, add_traffic_lookup]
        by_cases h : o.service = l
        · subst h
          cases hl : lookupA st.current o.service with
          | none => simp [packetsOf, hl]
          | some td => simp [packetsOf, hl]
        · simp [h, packetsOf]
      rw [hone]
      have hsum : Stats.sumPackets (o :: rest) l
          = (if o.service = l then o.packets else 0) + Stats.sumPackets rest l := by
        simp [Stats.sumPackets]
      rw [hsum]
      omega

/-- A label is absent from the open accumulator after a sequence of
add_traffic calls exactly when it was absent before and no call names it. -/
theorem addSeq_none (ops : List Stats.AddOp) (st : Stats.StatsData)
    (l : String) :
    lookupA (Stats.addSeq st ops).current l = none ↔
      (lookupA st.current l = none ∧ l ∉ ops.map Stats.AddOp.service) := by
  induction ops generalizing st with
  | nil => simp [Stats.addSeq]
  | cons o rest ih =>
      show lookupA (Stats.addSeq
          (Stats.add_traffic st o.now o.service o.bytes o.packets) rest).current l
          = none ↔ _
      rw [ih]
      rw [add_traffic_lookup]
      by_cases h : o.service = l
      · simp [h]
      · simp [h]
        intro _ _
        exact fun heq => h heq.symm

/-- Unfolding equation for one step of the merge loop. -/
theorem mergeOne_cons (acc : List (String × (Nat × Nat)))
    (kv : String × Stats.TrafficData) (rest : List (String × Stats.TrafficData)) :
    Stats.mergeOne acc (kv :: rest)
      = Stats.mergeOne
          (insertA acc kv.1
            (((lookupA acc kv.1).getD (0, 0)).1 + kv.2.bytes,
             ((lookupA acc kv.1).getD (0, 0)).2 + kv.2.packets)) rest := rfl

/-- The merge loop leaves labels it never meets alone. -/
theorem mergeOne_lookup_notmem (stats : List (String × Stats.TrafficData))
    (acc : List (String × (Nat × Nat))) (l : String)
    (h : l ∉ stats.map Prod.fst) :
    lookupA (Stats.mergeOne acc stats) l = lookupA acc l := by
  induction stats generalizing acc with
  | nil => rfl
  | cons kv rest ih =>
      rw [mergeOne_cons]
      have hk : kv.1 ≠ l := by
        intro heq
        exact h (by simp [← heq])
      have hrest : l ∉ rest.map Prod.fst := by
        intro hmem
        exact h (by simp at hmem ⊢; exact Or.inr hmem)
      rw [ih _ hrest, lookupA_insertA_ne _ _ _ _ hk]

/-- Lookup after merging one closed window whose keys are duplicate-free:
the window's bucket for the label is added to the accumulator's pair. -/
theorem mergeOne_lookup (stats : List (String × Stats.TrafficData))
    (acc : List (String × (Nat × Nat))) (l : String)
    (h : (stats.map Prod.fst).Nodup) :
    lookupA (Stats.mergeOne acc stats) l =
      match lookupA stats l with
      | some td => some (((lookupA acc l).getD (0, 0)).1 + td.bytes,
                         ((lookupA acc l).getD (0, 0)).2 + td.packets)
      | none => lookupA acc l := by
  induction stats generalizing acc with
  | nil => rfl
  | cons kv rest ih =>
      obtain ⟨k, td⟩ := kv
      rw [List.map_cons, List.nodup_cons] at h
      rw [mergeOne_cons]
      by_cases hk : k = l
      · subst hk
        have hnot : k ∉ rest.map Prod.fst := h.1
        rw [mergeOne_lookup_notmem rest _ k hnot]
        rw [lookupA_insertA_self]
        simp [lookupA]
      · rw [ih _ h.2]
        have hacc : lookupA (insertA acc k
            (((lookupA acc k).getD (0, 0)).1 + td.bytes,
             ((lookupA acc k).getD (0, 0)).2 + td.packets)) l = lookupA acc l :=
          lookupA_insertA_ne _ _ _ _ hk
        rw [hacc]
        have hstats : lookupA ((k, td) :: rest) l = lookupA rest l := by
          simp [lookupA, hk]
        rw [hstats]

/-- Claim C3: from the empty aggregator, any sequence of add_traffic calls
with no intervening query makes get_stats report, for each label named in
the sequence, exactly the sums of its byte and packet arguments (and nothing
for other labels); in particular the netflix/youtube example yields
exactly netflix (1536, 15) and youtube (2048, 20). -/
theorem C3_additivity :
    (∀ (ops : List Stats.AddOp) (now : Nat) (l : String),
        lookupA (Stats.get_stats (Stats.addSeq Stats.initStats ops) now).1 l
          = if l ∈ ops.map Stats.AddOp.service
            then some (Stats.sumBytes ops l, Stats.sumPackets ops l)
            else none)
    ∧ (Stats.get_stats (Stats.addSeq Stats.initStats
          [⟨0, "netflix", 1024, 10⟩, ⟨0, "youtube", 2048, 20⟩,
           ⟨0, "netflix", 512, 5⟩]) 0).1
        = [("netflix", (1536, 15)), ("youtube", (2048, 20))] := by
  constructor
  · intro ops now l
    by_cases hcur : (Stats.addSeq Stats.initStats ops).current = []
    · have hhist : (Stats.addSeq Stats.initStats ops).history = [] :=
        addSeq_history ops Stats.initStats
      have habsent : l ∉ ops.map Stats.AddOp.service := by
        have := (addSeq_none ops Stats.initStats l).mp (by rw [hcur]; rfl)
        exact this.2
      rw [if_neg habsent]
      show lookupA (Stats.get_stats (Stats.addSeq Stats.initStats ops) now).1 l
        = none
      rw [Stats.get_stats]
      rw [Stats.close_window, if_pos hcur, hhist]
      rfl
    · have hhist : (Stats.addSeq Stats.initStats ops).history = [] :=
        addSeq_history ops Stats.initStats
      have hclose : Stats.close_window (Stats.addSeq Stats.initStats ops) now
          = ⟨[], [(now, (Stats.addSeq Stats.initStats ops).current)]⟩ := by
        rw [Stats.close_window, if_neg hcur, hhist]
        simp
      have hclean : Stats.clean_old_data
          [(now, (Stats.addSeq Stats.initStats ops).current)] now
          = [(now, (Stats.addSeq Stats.initStats ops).current)] := by
        simp [Stats.clean_old_data, Stats.duration_since, Stats.retention_period]
      have hres : (Stats.get_stats (Stats.addSeq Stats.initStats ops) now).1
          = Stats.mergeOne [] (Stats.addSeq Stats.initStats ops).current := by
        rw [Stats.get_stats, hclose]
        show Stats.merge_history (Stats.clean_old_data
          [(now, (Stats.addSeq Stats.initStats ops).current)] now)
          = Stats.mergeOne [] (Stats.addSeq Stats.initStats ops).current
        rw [hclean]
        rfl
      rw [hres]
      have hnodup : (((Stats.addSeq Stats.initStats ops).current.map
          Prod.fst)).Nodup :=
        addSeq_nodup ops Stats.initStats (by simp [Stats.initStats])
      rw [mergeOne_lookup _ [] l hnodup]
      have hbytes := addSeq_bytes ops Stats.initStats l
      have hpackets := addSeq_packets ops Stats.initStats l
      have hinit_b : bytesOf Stats.initStats.current l = 0 := rfl
      have hinit_p : packetsOf Stats.initStats.current l = 0 := rfl
      rw [hinit_b] at hbytes
      rw [hinit_p] at hpackets
      by_cases hmem : l ∈ ops.map Stats.AddOp.service
      · rw [if_pos hmem]
        cases hl : lookupA (Stats.addSeq Stats.initStats ops).current l with
        | none =>
            have := (addSeq_none ops Stats.initStats l).mp hl
            exact absurd hmem this.2
        | some td =>
            have hb : td.bytes = Stats.sumBytes ops l := by
              rw [bytesOf, hl] at hbytes
              simpa using hbytes
            have hp : td.packets = Stats.sumPackets ops l := by
              rw [packetsOf, hl] at hpackets
              simpa using hpackets
            simp [lookupA, hb, hp]
      · rw [if_neg hmem]
        have hl : lookupA (Stats.addSeq Stats.initStats ops).current l = none :=
          (addSeq_none ops Stats.initStats l).mpr ⟨rfl, hmem⟩
        simp [hl, lookupA]
  · decide

/-- A bucket ordered in time, with both stamps bounded by the clock t. -/
def bucketWF (t : Nat) (td : Stats.TrafficData) : Prop :=
  td.first_seen ≤ td.last_seen ∧ td.last_seen ≤ t

/-- Every bucket of the state is well-formed at clock bound t. -/
def stateWF (t : Nat) (st : Stats.StatsData) : Prop :=
  (∀ p ∈ st.current, bucketWF t p.2)
  ∧ ∀ e ∈ st.history, ∀ p ∈ e.2, bucketWF t p.2

theorem bucketWF_mono {t u : Nat} {td : Stats.TrafficData} (h : t ≤ u)
    (hw : bucketWF t td) : bucketWF u td :=
  ⟨hw.1, le_trans hw.2 h⟩

/-- add_traffic with a clock at or after the bound keeps buckets well-formed. -/
theorem add_traffic_WF {t : Nat} {st : Stats.StatsData} {now : Nat}
    (s : String) (b p : Nat) (hst : stateWF t st) (hle : t ≤ now) :
    stateWF now (Stats.add_traffic st now s b p) := by
  have hhist : ∀ e ∈ (Stats.add_traffic st now s b p).history, ∀ q ∈ e.2,
      bucketWF now q.2 :=
    fun e he q hq => bucketWF_mono hle (hst.2 e he q hq)
  refine ⟨?_, hhist⟩
  intro q hq
  cases hl : lookupA st.current s with
  | none =>
      have hcur : (Stats.add_traffic st now s b p).current
          = insertA st.current s ⟨0 + b, 0 + p, now, now⟩ := by
        simp [Stats.add_traffic, hl]
      rw [hcur] at hq
      rcases mem_insertA hq with h1 | h1
      · rw [h1]
        exact ⟨le_refl now, le_refl now⟩
      · exact bucketWF_mono hle (hst.1 q h1)
  | some td =>
      have hcur : (Stats.add_traffic st now s b p).current
          = insertA st.current s
              ⟨td.bytes + b, td.packets + p, td.first_seen, now⟩ := by
        simp [Stats.add_traffic, hl]
      rw [hcur] at hq
      rcases mem_insertA hq with h1 | h1
      · rw [h1]
        have hw : bucketWF t td := hst.1 (s, td) (lookupA_mem hl)
        exact ⟨le_trans hw.1 (le_trans hw.2 hle), le_refl now⟩
      · exact bucketWF_mono hle (hst.1 q h1)

/-- The close-plus-purge state of the query operations keeps buckets
well-formed at the query clock. -/
theorem query_state_WF {t : Nat} {st : Stats.StatsData} {now : Nat}
    (hst : stateWF t st) (hle : t ≤ now) :
    stateWF now (Stats.get_stats st now).2 := by
  constructor
  · intro q hq
    by_cases hc : st.current = []
    · have : (Stats.get_stats st now).2.current = [] := by
        simp [Stats.get_stats, Stats.close_window, hc]
      rw [this] at hq
      exact absurd hq (List.not_mem_nil q)
    · have : (Stats.get_stats st now).2.current = [] := by
        simp [Stats.get_stats, Stats.close_window, hc]
      rw [this] at hq
      exact absurd hq (List.not_mem_nil q)
  · intro e he q hq
    have he1 : e ∈ (Stats.close_window st now).history :=
      (mem_clean_old_data he).1
    by_cases hc : st.current = []
    · rw [Stats.close_window, if_pos hc] at he1
      exact bucketWF_mono hle (hst.2 e he1 q hq)
    · rw [Stats.close_window, if_neg hc] at he1
      rcases List.mem_append.mp he1 with h1 | h1
      · exact bucketWF_mono hle (hst.2 e h1 q hq)
      · have he2 : e = (now, st.current) := by simpa using h1
        rw [he2] at hq
        exact bucketWF_mono hle (hst.1 q hq)

/-- Along any trace with nondecreasing clock readings, every reachable state
is well-formed at some clock bound. -/
theorem execTrace_WF (ops : List Stats.Op) :
    ∀ (t : Nat) (st : Stats.StatsData), stateWF t st → Stats.chrono t ops →
      ∃ u, t ≤ u ∧ stateWF u (Stats.execTrace st ops) := by
  induction ops with
  | nil =>
      intro t st hst _
      exact ⟨t, le_refl t, hst⟩
  | cons op rest ih =>
      intro t st hst hc
      cases op with
      | add now s b p =>
          have hc' : t ≤ now ∧ Stats.chrono now rest := hc
          obtain ⟨u, hu, hwf⟩ := ih now (Stats.add_traffic st now s b p)
            (add_traffic_WF s b p hst hc'.1) hc'.2
          exact ⟨u, le_trans hc'.1 hu, hwf⟩
      | getStats now =>
          have hc' : t ≤ now ∧ Stats.chrono now rest := hc
          obtain ⟨u, hu, hwf⟩ := ih now (Stats.get_stats st now).2
            (query_state_WF hst hc'.1) hc'.2
          exact ⟨u, le_trans hc'.1 hu, hwf⟩
      | getDetailed now =>
          have hc' : t ≤ now ∧ Stats.chrono now rest := hc
          obtain ⟨u, hu, hwf⟩ := ih now (Stats.get_detailed_stats st now).2
            (query_state_WF hst hc'.1) hc'.2
          exact ⟨u, le_trans hc'.1 hu, hwf⟩
      | reset =>
          have hreset : stateWF t (Stats.reset_stats st) := by
            constructor
            · intro q hq
              exact absurd hq (List.not_mem_nil q)
            · intro e he
              exact absurd he (List.not_mem_nil e)
          exact ih t (Stats.reset_stats st) hreset hc
      | getService s =>
          exact ih t st hst hc

/-- The detailed merge keeps first_seen at most last_seen for every entry. -/
theorem mergeDetailedOne_wf (stats : List (String × Stats.TrafficData)) :
    ∀ acc, (∀ p ∈ acc, p.2.first_seen ≤ p.2.last_seen) →
      (∀ p ∈ stats, p.2.first_seen ≤ p.2.last_seen) →
      ∀ p ∈ Stats.mergeDetailedOne acc stats,
        p.2.first_seen ≤ p.2.last_seen := by
  induction stats with
  | nil =>
      intro acc hacc _
      exact hacc
  | cons kv rest ih =>
      intro acc hacc hs
      have hkv : kv.2.first_seen ≤ kv.2.last_seen := hs kv (by simp)
      have hrest : ∀ p ∈ rest, p.2.first_seen ≤ p.2.last_seen :=
        fun p hp => hs p (List.mem_cons_of_mem _ hp)
      have hE : ((lookupA acc kv.1).getD
            ⟨0, 0, kv.2.first_seen, kv.2.last_seen⟩).first_seen
          ≤ ((lookupA acc kv.1).getD
            ⟨0, 0, kv.2.first_seen, kv.2.last_seen⟩).last_seen := by
        cases hl : lookupA acc kv.1 with
        | none => simpa using hkv
        | some v => simpa using hacc (kv.1, v) (lookupA_mem hl)
      have hacc' : ∀ p ∈ insertA acc kv.1
          { bytes := ((lookupA acc kv.1).getD
              ⟨0, 0, kv.2.first_seen, kv.2.last_seen⟩).bytes + kv.2.bytes,
            packets := ((lookupA acc kv.1).getD
              ⟨0, 0, kv.2.first_seen, kv.2.last_seen⟩).packets + kv.2.packets,
            first_seen := if kv.2.first_seen < ((lookupA acc kv.1).getD
                ⟨0, 0, kv.2.first_seen, kv.2.last_seen⟩).first_seen
              then kv.2.first_seen
              else ((lookupA acc kv.1).getD
                ⟨0, 0, kv.2.first_seen, kv.2.last_seen⟩).first_seen,
            last_seen := if kv.2.last_seen > ((lookupA acc kv.1).getD
                ⟨0, 0, kv.2.first_seen, kv.2.last_seen⟩).last_seen
              then kv.2.last_seen
              else ((lookupA acc kv.1).getD
                ⟨0, 0, kv.2.first_seen, kv.2.last_seen⟩).last_seen },
          p.2.first_seen ≤ p.2.last_seen := by
        intro p hp
        rcases mem_insertA hp with h1 | h1
        · rw [h1]
          dsimp only
          split_ifs <;> omega
        · exact hacc p h1
      exact ih _ hacc' hrest

/-- The full detailed merge keeps first_seen at most last_seen. -/
theorem merge_detailed_fold_wf
    (history : List (Nat × List (String × Stats.TrafficData))) :
    ∀ acc, (∀ p ∈ acc, p.2.first_seen ≤ p.2.last_seen) →
      (∀ e ∈ history, ∀ p ∈ e.2, p.2.first_seen ≤ p.2.last_seen) →
      ∀ p ∈ history.foldl (fun acc e => Stats.mergeDetailedOne acc e.2) acc,
        p.2.first_seen ≤ p.2.last_seen := by
  induction history with
  | nil =>
      intro acc hacc _
      exact hacc
  | cons e rest ih =>
      intro acc hacc hh
      exact ih _ (mergeDetailedOne_wf e.2 acc hacc (hh e (by simp)))
        (fun e2 he2 => hh e2 (List.mem_cons_of_mem _ he2))

/-- Claim C4 counterexample: with a backward clock jump between two
add_traffic calls (clock readings 1 then 0), the open accumulator holds a
bucket with first_seen 1 and last_seen 0, so the invariant fails on a
reachable state as the claim quantifies it. -/
theorem C4_counterexample :
    ¬ (∀ ops : List Stats.Op,
        ∀ p ∈ (Stats.execTrace Stats.initStats ops).current,
          p.2.first_seen ≤ p.2.last_seen) := by
  intro h
  have h2 := h [.add 1 "a" 5 1, .add 0 "a" 5 1] ("a", ⟨10, 2, 1, 0⟩)
    (by decide)
  exact absurd h2 (by decide)

/-- Claim C4 (amended): under nondecreasing clock readings across calls,
every TrafficBucket in the open accumulator or in any History entry of a
reachable state satisfies first_seen at most last_seen, and every merged
bucket returned by get_detailed_stats satisfies it as well. -/
theorem C4_amended (ops : List Stats.Op) (hc : Stats.chrono 0 ops) :
    (∀ p ∈ (Stats.execTrace Stats.initStats ops).current,
        p.2.first_seen ≤ p.2.last_seen)
    ∧ (∀ e ∈ (Stats.execTrace Stats.initStats ops).history, ∀ p ∈ e.2,
        p.2.first_seen ≤ p.2.last_seen)
    ∧ (∀ now, ∀ p ∈ (Stats.get_detailed_stats
          (Stats.execTrace Stats.initStats ops) now).1,
        p.2.first_seen ≤ p.2.last_seen) := by
  obtain ⟨u, _, hwf⟩ := execTrace_WF ops 0 Stats.initStats
    ⟨fun p hp => absurd hp (List.not_mem_nil p),
     fun e he => absurd he (List.not_mem_nil e)⟩ hc
  refine ⟨fun p hp => (hwf.1 p hp).1,
    fun e he p hp => (hwf.2 e he p hp).1, ?_⟩
  intro now p hp
  have hhist : ∀ e ∈ Stats.clean_old_data
      (Stats.close_window (Stats.execTrace Stats.initStats ops) now).history
      now, ∀ q ∈ e.2, q.2.first_seen ≤ q.2.last_seen := by
    intro e he q hq
    have he1 := (mem_clean_old_data he).1
    by_cases hcc : (Stats.execTrace Stats.initStats ops).current = []
    · rw [Stats.close_window, if_pos hcc] at he1
      exact (hwf.2 e he1 q hq).1
    · rw [Stats.close_window, if_neg hcc] at he1
      rcases List.mem_append.mp he1 with h1 | h1
      · exact (hwf.2 e h1 q hq).1
      · have he2 : e = (now, (Stats.execTrace Stats.initStats ops).current) := by
          simpa using h1
        rw [he2] at hq
        exact (hwf.1 q hq).1
  exact merge_detailed_fold_wf _ []
    (fun q hq => absurd hq (List.not_mem_nil q)) hhist p hp

/-- Witness for C4 (amended) along the concrete monotone trace of two
add_traffic calls at clocks 1 and 2. -/
theorem C4_amended_witness :
    (Stats.TrafficData.mk 8 2 1 2).first_seen
      ≤ (Stats.TrafficData.mk 8 2 1 2).last_seen :=
  (C4_amended [.add 1 "a" 5 1, .add 2 "a" 3 1]
    ⟨Nat.zero_le 1, by omega, trivial⟩).1 ("a", ⟨8, 2, 1, 2⟩) (by decide)

/-- The buckets contributing to get_service_stats for a label: the open
bucket if present, then each historical bucket for the label in order. -/
def contributors (st : Stats.StatsData) (s : String) :
    List Stats.TrafficData :=
  (lookupA st.current s).toList
    ++ st.history.filterMap (fun e => lookupA e.2 s)

/-- The fold of get_service_stats, abstracted over per-window lookups. -/
def serviceFold (init : Option Stats.TrafficData)
    (opts : List (Option Stats.TrafficData)) : Option Stats.TrafficData :=
  opts.foldl (fun res o =>
    match o with
    | none => res
    | some h =>
        match res with
        | some r => some (Stats.combineTD r h)
        | none => some h) init

/-- get_service_stats is the abstract fold over the history lookups. -/
theorem get_service_stats_eq (st : Stats.StatsData) (s : String) :
    Stats.get_service_stats st s
      = (serviceFold (lookupA st.current s)
          (st.history.map (fun e => lookupA e.2 s)), st) := by
  unfold Stats.get_service_stats serviceFold
  rw [List.foldl_map]

/-- Characterization of the service fold: it is empty exactly when every
input is, and otherwise it sums bytes/packets and takes the least first_seen
and greatest last_seen over the contributing buckets. -/
theorem serviceFold_spec (opts : List (Option Stats.TrafficData)) :
    ∀ init,
      (serviceFold init opts = none ↔
        init = none ∧ ∀ o ∈ opts, o = none)
      ∧ (∀ td, serviceFold init opts = some td →
          td.bytes = ((init.toList ++ opts.filterMap id).map
            Stats.TrafficData.bytes).sum
          ∧ td.packets = ((init.toList ++ opts.filterMap id).map
            Stats.TrafficData.packets).sum
          ∧ td.first_seen ∈ (init.toList ++ opts.filterMap id).map
              Stats.TrafficData.first_seen
          ∧ (∀ x ∈ (init.toList ++ opts.filterMap id).map
              Stats.TrafficData.first_seen, td.first_seen ≤ x)
          ∧ td.last_seen ∈ (init.toList ++ opts.filterMap id).map
              Stats.TrafficData.last_seen
          ∧ (∀ x ∈ (init.toList ++ opts.filterMap id).map
              Stats.TrafficData.last_seen, x ≤ td.last_seen)) := by
  induction opts with
  | nil =>
      intro init
      constructor
      · cases init <;> simp [serviceFold]
      · intro td h
        cases init with
        | none => simp [serviceFold] at h
        | some r =>
            have hr : r = td := by simpa [serviceFold] using h
            subst hr
            simp
  | cons o rest ih =>
      intro init
      cases o with
      | none =>
          have hfold : serviceFold init (none :: rest)
              = serviceFold init rest := rfl
          constructor
          · rw [hfold, (ih init).1]
            simp
          · intro td h
            have hspec := (ih init).2 td (by rw [← hfold]; exact h)
            simpa using hspec
      | some h =>
          cases init with
          | none =>
              have hfold : serviceFold none (some h :: rest)
                  = serviceFold (some h) rest := rfl
              constructor
              · rw [hfold, (ih (some h)).1]
                simp
              · intro td ht
                have hspec := (ih (some h)).2 td (by rw [← hfold]; exact ht)
                simpa using hspec
          | some r =>
              have hfold : serviceFold (some r) (some h :: rest)
                  = serviceFold (some (Stats.combineTD r h)) rest := rfl
              constructor
              · rw [hfold, (ih _).1]
                simp
              · intro td ht
                rw [hfold] at ht
                obtain ⟨hb, hp, hfm, hfb, hlm, hlb⟩ := (ih _).2 td ht
                have hcomb_b : (Stats.combineTD r h).bytes
                    = r.bytes + h.bytes := rfl
                have hcomb_p : (Stats.combineTD r h).packets
                    = r.packets + h.packets := rfl
                have hcomb_f : (Stats.combineTD r h).first_seen
                    = if h.first_seen < r.first_seen then h.first_seen
                      else r.first_seen := rfl
                have hcomb_l : (Stats.combineTD r h).last_seen
                    = if h.last_seen > r.last_seen then h.last_seen
                      else r.last_seen := rfl
                refine ⟨?_, ?_, ?_, ?_, ?_, ?_⟩
                · simp [hcomb_b] at hb
                  simp
                  omega
                · simp [hcomb_p] at hp
                  simp
                  omega
                · simp at hfm
                  simp
                  rcases hfm with h1 | h1
                  · rw [hcomb_f] at h1
                    by_cases hcmp : h.first_seen < r.first_seen
                    · rw [if_pos hcmp] at h1
                      exact Or.inr (Or.inl h1)
                    · rw [if_neg hcmp] at h1
                      exact Or.inl h1
                  · exact Or.inr (Or.inr h1)
                · intro x hx
                  simp at hx
                  have hcomb_le : td.first_seen
                      ≤ (Stats.combineTD r h).first_seen := by
                    refine hfb _ ?_
                    simp
                  rcases hx with h1 | h1 | h1
                  · rw [hcomb_f] at hcomb_le
                    subst h1
                    by_cases hcmp : h.first_seen < r.first_seen
                    · rw [if_pos hcmp] at hcomb_le
                      omega
                    · rw [if_neg hcmp] at hcomb_le
                      exact hcomb_le
                  · rw [hcomb_f] at hcomb_le
                    subst h1
                    by_cases hcmp : h.first_seen < r.first_seen
                    · rw [if_pos hcmp] at hcomb_le
                      exact hcomb_le
                    · rw [if_neg hcmp] at hcomb_le
                      omega
                  · refine hfb x ?_
                    simp
                    exact Or.inr h1
                · simp at hlm
                  simp
                  rcases hlm with h1 | h1
                  · rw [hcomb_l] at h1
                    by_cases hcmp : h.last_seen > r.last_seen
                    · rw [if_pos hcmp] at h1
                      exact Or.inr (Or.inl h1)
                    · rw [if_neg hcmp] at h1
                      exact Or.inl h1
                  · exact Or.inr (Or.inr h1)
                · intro x hx
                  simp at hx
                  have hcomb_le : (Stats.combineTD r h).last_seen
                      ≤ td.last_seen := by
                    refine hlb _ ?_
                    simp
                  rcases hx with h1 | h1 | h1
                  · rw [hcomb_l] at hcomb_le
                    subst h1
                    by_cases hcmp : h.last_seen > r.last_seen
                    · rw [if_pos hcmp] at hcomb_le
                      omega
                    · rw [if_neg hcmp] at hcomb_le
                      exact hcomb_le
                  · rw [hcomb_l] at hcomb_le
                    subst h1
                    by_cases hcmp : h.last_seen > r.last_seen
                    · rw [if_pos hcmp] at hcomb_le
                      exact hcomb_le
                    · rw [if_neg hcmp] at hcomb_le
                      omega
                  · refine hlb x ?_
                    simp
                    exact Or.inr h1

/-- Claim C9: get_service_stats leaves the aggregator state unchanged
(no window close, no purge); it returns none exactly when the label is
absent from the open accumulator and from every History entry, and
otherwise returns the bucket combining the open bucket (if present) with
every historical bucket for the label — bytes and packets summed, the least
first_seen and the greatest last_seen over the contributors. -/
theorem C9_service_stats (st : Stats.StatsData) (s : String) :
    (Stats.get_service_stats st s).2 = st
    ∧ ((Stats.get_service_stats st s).1 = none ↔
        lookupA st.current s = none
          ∧ ∀ e ∈ st.history, lookupA e.2 s = none)
    ∧ (∀ td, (Stats.get_service_stats st s).1 = some td →
        td.bytes = ((contributors st s).map Stats.TrafficData.bytes).sum
        ∧ td.packets
            = ((contributors st s).map Stats.TrafficData.packets).sum
        ∧ td.first_seen
            ∈ (contributors st s).map Stats.TrafficData.first_seen
        ∧ (∀ x ∈ (contributors st s).map Stats.TrafficData.first_seen,
            td.first_seen ≤ x)
        ∧ td.last_seen
            ∈ (contributors st s).map Stats.TrafficData.last_seen
        ∧ (∀ x ∈ (contributors st s).map Stats.TrafficData.last_seen,
            x ≤ td.last_seen)) := by
  have heq := get_service_stats_eq st s
  have hcontrib : contributors st s
      = (lookupA st.current s).toList
        ++ (st.history.map (fun e => lookupA e.2 s)).filterMap id := by
    rw [contributors]
    rw [List.filterMap_map]
    rfl
  refine ⟨by rw [heq], ?_, ?_⟩
  · rw [heq]
    show serviceFold (lookupA st.current s)
        (st.history.map (fun e => lookupA e.2 s)) = none ↔ _
    rw [(serviceFold_spec _ _).1]
    constructor
    · rintro ⟨h1, h2⟩
      exact ⟨h1, fun e he => h2 _ (List.mem_map_of_mem _ he)⟩
    · rintro ⟨h1, h2⟩
      refine ⟨h1, fun o ho => ?_⟩
      rcases List.mem_map.mp ho with ⟨e, he, rfl⟩
      exact h2 e he
  · intro td h
    rw [heq] at h
    obtain ⟨hb, hp, hfm, hfb, hlm, hlb⟩ := (serviceFold_spec _ _).2 td h
    rw [hcontrib]
    exact ⟨hb, hp, hfm, hfb, hlm, hlb⟩

/-- Witness for C9 at a concrete state with one open and one historical
bucket for the label. -/
theorem C9_service_stats_witness :
    (3 : Nat) = ((contributors
        ⟨[("a", ⟨1, 1, 5, 6⟩)], [(0, [("a", ⟨2, 3, 2, 9⟩)])]⟩ "a").map
        Stats.TrafficData.bytes).sum
    ∧ (4 : Nat) = ((contributors
        ⟨[("a", ⟨1, 1, 5, 6⟩)], [(0, [("a", ⟨2, 3, 2, 9⟩)])]⟩ "a").map
        Stats.TrafficData.packets).sum
    ∧ (2 : Nat) ∈ (contributors
        ⟨[("a", ⟨1, 1, 5, 6⟩)], [(0, [("a", ⟨2, 3, 2, 9⟩)])]⟩ "a").map
        Stats.TrafficData.first_seen
    ∧ (∀ x ∈ (contributors
        ⟨[("a", ⟨1, 1, 5, 6⟩)], [(0, [("a", ⟨2, 3, 2, 9⟩)])]⟩ "a").map
        Stats.TrafficData.first_seen, (2 : Nat) ≤ x)
    ∧ (9 : Nat) ∈ (contributors
        ⟨[("a", ⟨1, 1, 5, 6⟩)], [(0, [("a", ⟨2, 3, 2, 9⟩)])]⟩ "a").map
        Stats.TrafficData.last_seen
    ∧ (∀ x ∈ (contributors
        ⟨[("a", ⟨1, 1, 5, 6⟩)], [(0, [("a", ⟨2, 3, 2, 9⟩)])]⟩ "a").map
        Stats.TrafficData.last_seen, x ≤ (9 : Nat)) :=
  (C9_service_stats ⟨[("a", ⟨1, 1, 5, 6⟩)], [(0, [("a", ⟨2, 3, 2, 9⟩)])]⟩
    "a").2.2 ⟨3, 4, 2, 9⟩ (by decide)
